import Mathlib

/-!
Verification of the residua/mutf8 transcoder (`src/src/lib.rs`).

Modelling choices:
* A Rust `&str` (a text value) is a list of Unicode scalar values, `List Nat`,
  together with the well-formedness predicate `WF` (each element is a scalar
  value: below `0x110000` and not a surrogate).
* A byte buffer (`&[u8]` / `Vec<u8>`) is a `List Nat` of byte values.
* `utf8EncodeChar`/`utf8Encode` model `str::as_bytes` (the native UTF-8 byte
  representation of a text value), `utf8Decode` models `core::str::from_utf8`
  (strict UTF-8 validation, rejecting overlong forms, surrogates and values
  above `0x10FFFF`).
* The `cesu8` crate is an external collaborator; its four operations are
  modelled from the spec's contract for it (see the `cesu8` namespace).
* The `mutf8` namespace translates `src/src/lib.rs` definition by definition.
-/

instance {ε α : Type} [DecidableEq ε] [DecidableEq α] : DecidableEq (Except ε α) :=
  fun x y =>
    match x, y with
    | .ok a, .ok b => decidable_of_iff (a = b) (by simp)
    | .error a, .error b => decidable_of_iff (a = b) (by simp)
    | .ok _, .error _ => isFalse (by simp)
    | .error _, .ok _ => isFalse (by simp)

/-- A Unicode scalar value: below `0x110000` and not in the surrogate range. -/
def ScalarValue (c : Nat) : Prop :=
  c < 0x110000 ∧ (c < 0xD800 ∨ 0xDFFF < c)

instance : DecidablePred ScalarValue := fun c => by
  unfold ScalarValue; infer_instance

/-- A well-formed text value: every element is a Unicode scalar value. -/
def WF (s : List Nat) : Prop := ∀ c ∈ s, ScalarValue c

instance : DecidablePred WF := fun s => by
  unfold WF; infer_instance

/-- The native UTF-8 encoding of one scalar value (1 to 4 bytes). -/
def utf8EncodeChar (c : Nat) : List Nat :=
  if c < 0x80 then [c]
  else if c < 0x800 then [0xC0 + c / 0x40, 0x80 + c % 0x40]
  else if c < 0x10000 then
    [0xE0 + c / 0x1000, 0x80 + c / 0x40 % 0x40, 0x80 + c % 0x40]
  else
    [0xF0 + c / 0x40000, 0x80 + c / 0x1000 % 0x40, 0x80 + c / 0x40 % 0x40,
      0x80 + c % 0x40]

/-- The native UTF-8 byte representation of a text value (`str::as_bytes`). -/
def utf8Encode (s : List Nat) : List Nat := s.flatMap utf8EncodeChar

/-- Is `b` a UTF-8 continuation byte (`0x80 ≤ b ≤ 0xBF`)? -/
def isCont (b : Nat) : Prop := 0x80 ≤ b ∧ b < 0xC0

instance : DecidablePred isCont := fun b => by
  unfold isCont; infer_instance

/-- One strict-UTF-8 step for a 2-byte sequence with lead byte `b1`
(`0xC0 ≤ b1 < 0xE0`): continuation byte required, overlong forms rejected. -/
def utf8Step2 (b1 : Nat) : List Nat → Option (Nat × List Nat)
  | b2 :: t2 =>
    if isCont b2 then
      if b1 % 0x20 * 0x40 + b2 % 0x40 < 0x80 then none
      else some (b1 % 0x20 * 0x40 + b2 % 0x40, t2)
    else none
  | _ => none

/-- One strict-UTF-8 step for a 3-byte sequence with lead byte `b1`
(`0xE0 ≤ b1 < 0xF0`): two continuation bytes required, overlong forms and
encoded surrogates rejected. -/
def utf8Step3 (b1 : Nat) : List Nat → Option (Nat × List Nat)
  | b2 :: b3 :: t3 =>
    if isCont b2 ∧ isCont b3 then
      let c := b1 % 0x10 * 0x1000 + b2 % 0x40 * 0x40 + b3 % 0x40
      if c < 0x800 then none
      else if 0xD800 ≤ c ∧ c ≤ 0xDFFF then none
      else some (c, t3)
    else none
  | _ => none

/-- One strict-UTF-8 step for a 4-byte sequence with lead byte `b1`
(`0xF0 ≤ b1 < 0xF8`): three continuation bytes required, overlong forms and
values above `0x10FFFF` rejected. -/
def utf8Step4 (b1 : Nat) : List Nat → Option (Nat × List Nat)
  | b2 :: b3 :: b4 :: t4 =>
    if isCont b2 ∧ isCont b3 ∧ isCont b4 then
      let c := b1 % 0x8 * 0x40000 + b2 % 0x40 * 0x1000 + b3 % 0x40 * 0x40 +
        b4 % 0x40
      if c < 0x10000 then none
      else if 0x10FFFF < c then none
      else some (c, t4)
    else none
  | _ => none

/-- Decode one scalar value from the front of a byte buffer, strictly
(modelling one step of `core::str::from_utf8` validation): returns the scalar
and the remaining bytes, or `none` on any malformed prefix. -/
def utf8DecodeStep : List Nat → Option (Nat × List Nat)
  | [] => none
  | b1 :: t1 =>
    if b1 < 0x80 then some (b1, t1)
    else if b1 < 0xC0 then none
    else if b1 < 0xE0 then utf8Step2 b1 t1
    else if b1 < 0xF0 then utf8Step3 b1 t1
    else if b1 < 0xF8 then utf8Step4 b1 t1
    else none

/-- Fuel-driven iteration of `utf8DecodeStep`; `utf8Decode` supplies fuel
`bs.length`, which is always sufficient since each step consumes at least one
byte (`utf8DecodeStep_length_lt`). -/
def utf8DecodeGo : Nat → List Nat → Option (List Nat)
  | _, [] => some []
  | 0, _ :: _ => none
  | fuel + 1, b1 :: t1 =>
    (utf8DecodeStep (b1 :: t1)).bind
      (fun p => (utf8DecodeGo fuel p.2).map (fun r => p.1 :: r))

/-- Strict UTF-8 decoding, modelling `core::str::from_utf8`: rejects overlong
encodings, encoded surrogates, values above `0x10FFFF`, and truncated or
malformed sequences. -/
def utf8Decode (bs : List Nat) : Option (List Nat) := utf8DecodeGo bs.length bs

namespace cesu8

/-- Modelled from the spec: the CESU-8 transcoder's error type; the spec only
requires `decode(bytes) -> Result<text, error>`, so the error is opaque. -/
structure Error : Type where
  mk ::
deriving DecidableEq, Repr

/-- Modelled from the spec: the CESU-8 encoding of one scalar value — scalar
values up to `0xFFFF` use their UTF-8 encoding, and "each Unicode scalar value
above U+FFFF is represented as a surrogate pair, each pair encoded as two
independent 3-byte UTF-8-style sequences (6 bytes total)". -/
def encodeChar (c : Nat) : List Nat :=
  if c < 0x10000 then utf8EncodeChar c
  else
    utf8EncodeChar (0xD800 + (c - 0x10000) / 0x400) ++
      utf8EncodeChar (0xDC00 + (c - 0x10000) % 0x400)

/-- Modelled from the spec: `cesu8::encode(str) -> bytes`, a total function. -/
def encode (s : List Nat) : List Nat := s.flatMap encodeChar

/-- Modelled from the spec: the CESU-8 byte length of one scalar value
(surrogate-pair expansion makes supplementary code points 6 bytes). -/
def charLen (c : Nat) : Nat :=
  if c < 0x80 then 1
  else if c < 0x800 then 2
  else if c < 0x10000 then 3
  else 6

/-- Modelled from the spec: `cesu8::len(str) -> usize`, the CESU-8-computed
byte length, computed without allocating. -/
def len (s : List Nat) : Nat := (s.map charLen).sum

/-- Modelled from the spec: `cesu8::is_valid(str) -> bool` is "the CESU-8
transcoder's own validity check (i.e., it contains no scalar value requiring
surrogate-pair expansion, namely none above U+FFFF)". -/
def is_valid (s : List Nat) : Bool := s.all (fun c => c < 0x10000)

/-- Modelled from the spec: after an encoded high surrogate `hi`, the CESU-8
decoder requires the next three bytes to be the 3-byte encoding of a low
surrogate; the pair combines into one supplementary scalar value. -/
def stepLow (hi : Nat) : List Nat → Option (Nat × List Nat)
  | b4 :: b5 :: b6 :: t6 =>
    if (0xE0 ≤ b4 ∧ b4 < 0xF0) ∧ isCont b5 ∧ isCont b6 then
      let c2 := b4 % 0x10 * 0x1000 + b5 % 0x40 * 0x40 + b6 % 0x40
      if 0xDC00 ≤ c2 ∧ c2 ≤ 0xDFFF then
        some (0x10000 + (hi - 0xD800) * 0x400 + (c2 - 0xDC00), t6)
      else none
    else none
  | _ => none

/-- Modelled from the spec: one CESU-8 step for a 3-byte sequence — overlong
forms and unpaired low surrogates are malformed, a high surrogate must be
followed by an encoded low surrogate, anything else decodes as in UTF-8. -/
def step3 (b1 : Nat) : List Nat → Option (Nat × List Nat)
  | b2 :: b3 :: t3 =>
    if isCont b2 ∧ isCont b3 then
      let c := b1 % 0x10 * 0x1000 + b2 % 0x40 * 0x40 + b3 % 0x40
      if c < 0x800 then none
      else if 0xDC00 ≤ c ∧ c ≤ 0xDFFF then none
      else if 0xD800 ≤ c ∧ c ≤ 0xDBFF then stepLow c t3
      else some (c, t3)
    else none
  | _ => none

/-- Modelled from the spec: decode one scalar value from the front of a CESU-8
byte buffer; 1- and 2-byte sequences are as in UTF-8, 3-byte sequences follow
`step3`, and 4-byte leads are malformed (CESU-8 has no 4-byte sequences). -/
def decodeStep : List Nat → Option (Nat × List Nat)
  | [] => none
  | b1 :: t1 =>
    if b1 < 0x80 then some (b1, t1)
    else if b1 < 0xC0 then none
    else if b1 < 0xE0 then utf8Step2 b1 t1
    else if b1 < 0xF0 then step3 b1 t1
    else none

/-- Fuel-driven iteration of `decodeStep`; `cesu8.decode` supplies fuel
`bs.length`, which is always sufficient since each step consumes at least one
byte. -/
def decodeGo : Nat → List Nat → Except Error (List Nat)
  | _, [] => .ok []
  | 0, _ :: _ => .error Error.mk
  | fuel + 1, b1 :: t1 =>
    (decodeStep (b1 :: t1)).elim (Except.error Error.mk)
      (fun p => (decodeGo fuel p.2).map (fun r => p.1 :: r))

/-- Modelled from the spec: `cesu8::decode(bytes) -> Result<text, error>`,
which "fails on malformed surrogate/continuation sequences": 1- to 3-byte
UTF-8 sequences decode as usual, an encoded high surrogate must be followed by
an encoded low surrogate (the pair combining into one supplementary scalar),
and overlong forms, unpaired surrogates and 4-byte leads are malformed. -/
def decode (bs : List Nat) : Except Error (List Nat) := decodeGo bs.length bs

end cesu8

namespace mutf8

/-- From the source, `NULL_PAIR`: the pair of bytes the null code point is
represented by in MUTF-8. -/
def NULL_PAIR : List Nat := [0xC0, 0x80]

/-- From the source, `NULL_CODE_POINT`. -/
def NULL_CODE_POINT : Nat := 0x00

/-- From the source, `NULL_CHAR` (as a scalar value). -/
def NULL_CHAR : Nat := 0

/-- The `Error` type of `src/src/lib.rs`: a unit struct with no payload. -/
structure Error : Type where
  mk ::
deriving DecidableEq, Repr

/-- The `From<cesu8::Error> for Error` impl: discards the cause. -/
def Error.fromCesu8 (_ : cesu8.Error) : Error := Error.mk

/-- From the source, `is_valid`: `!s.contains(NULL_CHAR) && cesu8::is_valid(s)`. -/
def is_valid (s : List Nat) : Bool :=
  !(s.contains NULL_CHAR) && cesu8.is_valid s

/-- From the source, `len`: the CESU-8 length plus one extra byte per null byte
of the UTF-8 representation (`s.as_bytes()`). -/
def len (s : List Nat) : Nat :=
  cesu8.len s + (utf8Encode s).count NULL_CODE_POINT

/-- From the source, `encode_mutf8`: each byte of `cesu8::encode(s)` is copied,
except that the null byte is expanded to `NULL_PAIR`. -/
def encode_mutf8 (s : List Nat) : List Nat :=
  (cesu8.encode s).flatMap (fun b => if b = NULL_CODE_POINT then NULL_PAIR else [b])

/-- The per-scalar view of `encode_mutf8`: the CESU-8 encoding of one scalar
value with each null byte expanded to `NULL_PAIR` (a proof-layer regrouping of
`encode_mutf8`, see `encode_mutf8_eq_flatMap`). -/
def mutf8EncodeChar (c : Nat) : List Nat :=
  (cesu8.encodeChar c).flatMap (fun b => if b = NULL_CODE_POINT then NULL_PAIR else [b])

/-- From the source, `encode`: borrow `s.as_bytes()` when `is_valid s`,
otherwise run `encode_mutf8`. -/
def encode (s : List Nat) : List Nat :=
  if is_valid s then utf8Encode s else encode_mutf8 s

/-- The scanning loop of `decode_mutf8` from the source: a `0xC0` byte must be
followed by `0x80` (the pair becoming a single null byte, `err!()` otherwise);
every other byte is copied through unchanged. -/
def decodeMutf8Loop : List Nat → Option (List Nat)
  | [] => some []
  | b :: rest =>
    if b = 0xC0 then
      match rest with
      | [] => none
      | b2 :: rest2 =>
        if b2 = 0x80 then (decodeMutf8Loop rest2).map (fun r => NULL_CODE_POINT :: r)
        else none
    else (decodeMutf8Loop rest).map (fun r => b :: r)

/-- From the source, `decode_mutf8`: run the scanning loop, then hand the
intermediate buffer to `cesu8::decode`, converting its error via `From`. -/
def decode_mutf8 (bs : List Nat) : Except Error (List Nat) :=
  match decodeMutf8Loop bs with
  | none => .error Error.mk
  | some decoded => (cesu8.decode decoded).mapError Error.fromCesu8

/-- From the source, `decode`: try `from_utf8` first (borrowed, no copy), fall
back to `decode_mutf8`. -/
def decode (bs : List Nat) : Except Error (List Nat) :=
  match utf8Decode bs with
  | some s => .ok s
  | none => decode_mutf8 bs

end mutf8

/-! ### Fuel elimination for the two decoders -/

theorem utf8Step2_length {b1 : Nat} {t : List Nat} {c : Nat} {rest : List Nat}
    (h : utf8Step2 b1 t = some (c, rest)) : rest.length ≤ t.length := by
  match t with
  | [] => simp [utf8Step2] at h
  | b2 :: t2 =>
    simp only [utf8Step2] at h
    split_ifs at h <;>
      simp only [Option.some.injEq, Prod.mk.injEq, reduceCtorEq] at h
    obtain ⟨-, rfl⟩ := h
    simp only [List.length_cons]
    omega

theorem utf8Step3_length {b1 : Nat} {t : List Nat} {c : Nat} {rest : List Nat}
    (h : utf8Step3 b1 t = some (c, rest)) : rest.length ≤ t.length := by
  match t with
  | [] => simp [utf8Step3] at h
  | [_] => simp [utf8Step3] at h
  | b2 :: b3 :: t3 =>
    simp only [utf8Step3] at h
    split_ifs at h <;>
      simp only [Option.some.injEq, Prod.mk.injEq, reduceCtorEq] at h
    obtain ⟨-, rfl⟩ := h
    simp only [List.length_cons]
    omega

theorem utf8Step4_length {b1 : Nat} {t : List Nat} {c : Nat} {rest : List Nat}
    (h : utf8Step4 b1 t = some (c, rest)) : rest.length ≤ t.length := by
  match t with
  | [] => simp [utf8Step4] at h
  | [_] => simp [utf8Step4] at h
  | [_, _] => simp [utf8Step4] at h
  | b2 :: b3 :: b4 :: t4 =>
    simp only [utf8Step4] at h
    split_ifs at h <;>
      simp only [Option.some.injEq, Prod.mk.injEq, reduceCtorEq] at h
    obtain ⟨-, rfl⟩ := h
    simp only [List.length_cons]
    omega

theorem utf8DecodeStep_length {bs : List Nat} {c : Nat} {rest : List Nat}
    (h : utf8DecodeStep bs = some (c, rest)) : rest.length < bs.length := by
  match bs with
  | [] => simp [utf8DecodeStep] at h
  | b1 :: t1 =>
    simp only [utf8DecodeStep] at h
    split_ifs at h <;>
      first
      | (simp only [Option.some.injEq, Prod.mk.injEq, reduceCtorEq] at h
         obtain ⟨-, rfl⟩ := h
         simp only [List.length_cons]
         omega)
      | (have hst := utf8Step2_length h
         simp only [List.length_cons]
         omega)
      | (have hst := utf8Step3_length h
         simp only [List.length_cons]
         omega)
      | (have hst := utf8Step4_length h
         simp only [List.length_cons]
         omega)

theorem utf8DecodeGo_fuel : ∀ (f1 : Nat) {f2 : Nat} {bs : List Nat},
    bs.length ≤ f1 → bs.length ≤ f2 → utf8DecodeGo f1 bs = utf8DecodeGo f2 bs
  | f1, f2, [], _, _ => by
    cases f1 <;> cases f2 <;> simp [utf8DecodeGo]
  | f1 + 1, f2 + 1, b1 :: t1, h1, h2 => by
    rw [utf8DecodeGo, utf8DecodeGo]
    cases hstep : utf8DecodeStep (b1 :: t1) with
    | none => rfl
    | some p =>
      obtain ⟨c, rest⟩ := p
      have hlen := utf8DecodeStep_length hstep
      simp only [List.length_cons] at h1 h2 hlen
      simp only [Option.some_bind]
      rw [utf8DecodeGo_fuel f1 (by omega) (by omega : rest.length ≤ f2)]

theorem utf8Decode_of_step_some {bs : List Nat} {c : Nat} {rest : List Nat}
    (h : utf8DecodeStep bs = some (c, rest)) :
    utf8Decode bs = (utf8Decode rest).map (fun r => c :: r) := by
  match bs with
  | [] => simp [utf8DecodeStep] at h
  | b1 :: t1 =>
    have hlen := utf8DecodeStep_length h
    simp only [List.length_cons] at hlen
    rw [utf8Decode, List.length_cons, utf8DecodeGo, h, Option.some_bind,
      utf8Decode]
    rw [utf8DecodeGo_fuel t1.length (by omega) (le_refl rest.length)]

theorem utf8Decode_of_step_none {bs : List Nat} (hne : bs ≠ [])
    (h : utf8DecodeStep bs = none) : utf8Decode bs = none := by
  match bs with
  | [] => exact absurd rfl hne
  | b1 :: t1 =>
    rw [utf8Decode, List.length_cons, utf8DecodeGo, h, Option.none_bind]

theorem cesu8.stepLow_length {hi : Nat} {t : List Nat} {c : Nat}
    {rest : List Nat} (h : cesu8.stepLow hi t = some (c, rest)) :
    rest.length ≤ t.length := by
  match t with
  | [] => simp [cesu8.stepLow] at h
  | [_] => simp [cesu8.stepLow] at h
  | [_, _] => simp [cesu8.stepLow] at h
  | b4 :: b5 :: b6 :: t6 =>
    simp only [cesu8.stepLow] at h
    split_ifs at h <;>
      simp only [Option.some.injEq, Prod.mk.injEq, reduceCtorEq] at h
    obtain ⟨-, rfl⟩ := h
    simp only [List.length_cons]
    omega

theorem cesu8.step3_length {b1 : Nat} {t : List Nat} {c : Nat}
    {rest : List Nat} (h : cesu8.step3 b1 t = some (c, rest)) :
    rest.length ≤ t.length := by
  match t with
  | [] => simp [cesu8.step3] at h
  | [_] => simp [cesu8.step3] at h
  | b2 :: b3 :: t3 =>
    simp only [cesu8.step3] at h
    split_ifs at h <;>
      first
      | simp only [reduceCtorEq] at h
      | (have hst := cesu8.stepLow_length h
         simp only [List.length_cons]
         omega)
      | (simp only [Option.some.injEq, Prod.mk.injEq] at h
         obtain ⟨-, rfl⟩ := h
         simp only [List.length_cons]
         omega)

theorem cesu8.decodeStep_length {bs : List Nat} {c : Nat} {rest : List Nat}
    (h : cesu8.decodeStep bs = some (c, rest)) : rest.length < bs.length := by
  match bs with
  | [] => simp [cesu8.decodeStep] at h
  | b1 :: t1 =>
    simp only [cesu8.decodeStep] at h
    split_ifs at h <;>
      first
      | (simp only [Option.some.injEq, Prod.mk.injEq, reduceCtorEq] at h
         obtain ⟨-, rfl⟩ := h
         simp only [List.length_cons]
         omega)
      | (have hst := utf8Step2_length h
         simp only [List.length_cons]
         omega)
      | (have hst := cesu8.step3_length h
         simp only [List.length_cons]
         omega)

theorem cesu8.decodeGo_fuel : ∀ (f1 : Nat) {f2 : Nat} {bs : List Nat},
    bs.length ≤ f1 → bs.length ≤ f2 → cesu8.decodeGo f1 bs = cesu8.decodeGo f2 bs
  | f1, f2, [], _, _ => by
    cases f1 <;> cases f2 <;> simp [cesu8.decodeGo]
  | f1 + 1, f2 + 1, b1 :: t1, h1, h2 => by
    rw [cesu8.decodeGo, cesu8.decodeGo]
    cases hstep : cesu8.decodeStep (b1 :: t1) with
    | none => rfl
    | some p =>
      obtain ⟨c, rest⟩ := p
      have hlen := cesu8.decodeStep_length hstep
      simp only [List.length_cons] at h1 h2 hlen
      simp only [Option.elim]
      rw [cesu8.decodeGo_fuel f1 (by omega) (by omega : rest.length ≤ f2)]

theorem cesu8.decode_of_step_some {bs : List Nat} {c : Nat} {rest : List Nat}
    (h : cesu8.decodeStep bs = some (c, rest)) :
    cesu8.decode bs = (cesu8.decode rest).map (fun r => c :: r) := by
  match bs with
  | [] => simp [cesu8.decodeStep] at h
  | b1 :: t1 =>
    have hlen := cesu8.decodeStep_length h
    simp only [List.length_cons] at hlen
    rw [cesu8.decode, List.length_cons, cesu8.decodeGo, h, cesu8.decode]
    simp only [Option.elim]
    rw [cesu8.decodeGo_fuel t1.length (by omega) (le_refl rest.length)]

theorem cesu8.decode_of_step_none {bs : List Nat} (hne : bs ≠ [])
    (h : cesu8.decodeStep bs = none) :
    cesu8.decode bs = .error cesu8.Error.mk := by
  match bs with
  | [] => exact absurd rfl hne
  | b1 :: t1 =>
    rw [cesu8.decode, List.length_cons, cesu8.decodeGo, h]
    rfl

/-! ### Decoding one encoded scalar value -/

theorem utf8EncodeChar_eq1 {c : Nat} (h : c < 0x80) : utf8EncodeChar c = [c] := by
  rw [utf8EncodeChar, if_pos h]

theorem utf8EncodeChar_eq2 {c : Nat} (h1 : 0x80 ≤ c) (h2 : c < 0x800) :
    utf8EncodeChar c = [0xC0 + c / 0x40, 0x80 + c % 0x40] := by
  rw [utf8EncodeChar, if_neg (by omega), if_pos h2]

theorem utf8EncodeChar_eq3 {c : Nat} (h1 : 0x800 ≤ c) (h2 : c < 0x10000) :
    utf8EncodeChar c = [0xE0 + c / 0x1000, 0x80 + c / 0x40 % 0x40, 0x80 + c % 0x40] := by
  rw [utf8EncodeChar, if_neg (by omega), if_neg (by omega), if_pos h2]

theorem utf8EncodeChar_eq4 {c : Nat} (h1 : 0x10000 ≤ c) :
    utf8EncodeChar c =
      [0xF0 + c / 0x40000, 0x80 + c / 0x1000 % 0x40, 0x80 + c / 0x40 % 0x40,
        0x80 + c % 0x40] := by
  rw [utf8EncodeChar, if_neg (by omega), if_neg (by omega), if_neg (by omega)]

theorem isCont_of {b : Nat} (h1 : 0x80 ≤ b) (h2 : b < 0xC0) : isCont b :=
  ⟨h1, h2⟩

theorem utf8EncodeChar_ne_nil (c : Nat) : utf8EncodeChar c ≠ [] := by
  rw [utf8EncodeChar]
  split_ifs <;> simp

theorem utf8DecodeStep_enc1 {c : Nat} (h : c < 0x80) (bs : List Nat) :
    utf8DecodeStep (utf8EncodeChar c ++ bs) = some (c, bs) := by
  rw [utf8EncodeChar_eq1 h, List.cons_append, List.nil_append, utf8DecodeStep,
    if_pos h]

theorem utf8DecodeStep_enc2 {c : Nat} (h1 : 0x80 ≤ c) (h2 : c < 0x800)
    (bs : List Nat) : utf8DecodeStep (utf8EncodeChar c ++ bs) = some (c, bs) := by
  rw [utf8EncodeChar_eq2 h1 h2]
  simp only [List.cons_append, List.nil_append]
  rw [utf8DecodeStep, if_neg (by omega), if_neg (by omega), if_pos (by omega)]
  rw [utf8Step2, if_pos (isCont_of (by omega) (by omega)), if_neg (by omega)]
  simp only [Option.some.injEq, Prod.mk.injEq, and_true]
  omega

theorem utf8DecodeStep_enc3 {c : Nat} (h1 : 0x800 ≤ c) (h2 : c < 0x10000)
    (h3 : c < 0xD800 ∨ 0xDFFF < c) (bs : List Nat) :
    utf8DecodeStep (utf8EncodeChar c ++ bs) = some (c, bs) := by
  rw [utf8EncodeChar_eq3 h1 h2]
  simp only [List.cons_append, List.nil_append]
  rw [utf8DecodeStep, if_neg (by omega), if_neg (by omega), if_neg (by omega),
    if_pos (by omega)]
  rw [utf8Step3]
  rw [if_pos ⟨isCont_of (by omega) (by omega), isCont_of (by omega) (by omega)⟩]
  simp only []
  rw [if_neg (by omega), if_neg (by omega)]
  simp only [Option.some.injEq, Prod.mk.injEq, and_true]
  omega

theorem utf8DecodeStep_enc4 {c : Nat} (h1 : 0x10000 ≤ c) (h2 : c < 0x110000)
    (bs : List Nat) : utf8DecodeStep (utf8EncodeChar c ++ bs) = some (c, bs) := by
  rw [utf8EncodeChar_eq4 h1]
  simp only [List.cons_append, List.nil_append]
  rw [utf8DecodeStep, if_neg (by omega), if_neg (by omega), if_neg (by omega),
    if_neg (by omega), if_pos (by omega)]
  rw [utf8Step4]
  rw [if_pos ⟨isCont_of (by omega) (by omega), isCont_of (by omega) (by omega),
    isCont_of (by omega) (by omega)⟩]
  simp only []
  rw [if_neg (by omega), if_neg (by omega)]
  simp only [Option.some.injEq, Prod.mk.injEq, and_true]
  omega

theorem utf8DecodeStep_encodeChar {c : Nat} (h : ScalarValue c) (bs : List Nat) :
    utf8DecodeStep (utf8EncodeChar c ++ bs) = some (c, bs) := by
  obtain ⟨h1, h2⟩ := h
  rcases Nat.lt_or_ge c 0x80 with h | h
  · exact utf8DecodeStep_enc1 h bs
  rcases Nat.lt_or_ge c 0x800 with h' | h'
  · exact utf8DecodeStep_enc2 h h' bs
  rcases Nat.lt_or_ge c 0x10000 with h'' | h''
  · exact utf8DecodeStep_enc3 h' h'' h2 bs
  · exact utf8DecodeStep_enc4 h'' h1 bs

theorem utf8DecodeStep_encSurrogate {w : Nat} (h1 : 0xD800 ≤ w)
    (h2 : w < 0xE000) (bs : List Nat) :
    utf8DecodeStep (utf8EncodeChar w ++ bs) = none := by
  rw [utf8EncodeChar_eq3 (by omega) (by omega)]
  simp only [List.cons_append, List.nil_append]
  rw [utf8DecodeStep, if_neg (by omega), if_neg (by omega), if_neg (by omega),
    if_pos (by omega)]
  rw [utf8Step3]
  rw [if_pos ⟨isCont_of (by omega) (by omega), isCont_of (by omega) (by omega)⟩]
  simp only []
  rw [if_neg (by omega), if_pos (by omega)]

theorem cesu8.decodeStep_enc1 {c : Nat} (h : c < 0x80) (bs : List Nat) :
    cesu8.decodeStep (cesu8.encodeChar c ++ bs) = some (c, bs) := by
  rw [cesu8.encodeChar, if_pos (by omega), utf8EncodeChar_eq1 h,
    List.cons_append, List.nil_append, cesu8.decodeStep, if_pos h]

theorem cesu8.decodeStep_enc2 {c : Nat} (h1 : 0x80 ≤ c) (h2 : c < 0x800)
    (bs : List Nat) :
    cesu8.decodeStep (cesu8.encodeChar c ++ bs) = some (c, bs) := by
  rw [cesu8.encodeChar, if_pos (by omega), utf8EncodeChar_eq2 h1 h2]
  simp only [List.cons_append, List.nil_append]
  rw [cesu8.decodeStep, if_neg (by omega), if_neg (by omega), if_pos (by omega)]
  rw [utf8Step2, if_pos (isCont_of (by omega) (by omega)), if_neg (by omega)]
  simp only [Option.some.injEq, Prod.mk.injEq, and_true]
  omega

theorem cesu8.decodeStep_enc3 {c : Nat} (h1 : 0x800 ≤ c) (h2 : c < 0x10000)
    (h3 : c < 0xD800 ∨ 0xDFFF < c) (bs : List Nat) :
    cesu8.decodeStep (cesu8.encodeChar c ++ bs) = some (c, bs) := by
  rw [cesu8.encodeChar, if_pos (by omega), utf8EncodeChar_eq3 h1 h2]
  simp only [List.cons_append, List.nil_append]
  rw [cesu8.decodeStep, if_neg (by omega), if_neg (by omega), if_neg (by omega),
    if_pos (by omega)]
  rw [cesu8.step3]
  rw [if_pos ⟨isCont_of (by omega) (by omega), isCont_of (by omega) (by omega)⟩]
  simp only []
  rw [if_neg (by omega), if_neg (by omega), if_neg (by omega)]
  simp only [Option.some.injEq, Prod.mk.injEq, and_true]
  omega

theorem cesu8.decodeStep_enc4 {c : Nat} (h1 : 0x10000 ≤ c) (h2 : c < 0x110000)
    (bs : List Nat) :
    cesu8.decodeStep (cesu8.encodeChar c ++ bs) = some (c, bs) := by
  rw [cesu8.encodeChar, if_neg (by omega)]
  rw [utf8EncodeChar_eq3
    (show 0x800 ≤ 0xD800 + (c - 0x10000) / 0x400 by omega)
    (show 0xD800 + (c - 0x10000) / 0x400 < 0x10000 by omega)]
  rw [utf8EncodeChar_eq3
    (show 0x800 ≤ 0xDC00 + (c - 0x10000) % 0x400 by omega)
    (show 0xDC00 + (c - 0x10000) % 0x400 < 0x10000 by omega)]
  rw [List.append_assoc]
  simp only [List.cons_append, List.nil_append]
  rw [cesu8.decodeStep, if_neg (by omega), if_neg (by omega), if_neg (by omega),
    if_pos (by omega)]
  rw [cesu8.step3]
  rw [if_pos ⟨isCont_of (by omega) (by omega), isCont_of (by omega) (by omega)⟩]
  simp only []
  rw [if_neg (by omega), if_neg (by omega), if_pos (by omega)]
  rw [cesu8.stepLow]
  rw [if_pos ⟨⟨by omega, by omega⟩, isCont_of (by omega) (by omega),
    isCont_of (by omega) (by omega)⟩]
  simp only []
  rw [if_pos (by omega)]
  simp only [Option.some.injEq, Prod.mk.injEq, and_true]
  omega

theorem cesu8.decodeStep_encodeChar {c : Nat} (h : ScalarValue c)
    (bs : List Nat) :
    cesu8.decodeStep (cesu8.encodeChar c ++ bs) = some (c, bs) := by
  obtain ⟨h1, h2⟩ := h
  rcases Nat.lt_or_ge c 0x80 with h | h
  · exact cesu8.decodeStep_enc1 h bs
  rcases Nat.lt_or_ge c 0x800 with h' | h'
  · exact cesu8.decodeStep_enc2 h h' bs
  rcases Nat.lt_or_ge c 0x10000 with h'' | h''
  · exact cesu8.decodeStep_enc3 h' h'' h2 bs
  · exact cesu8.decodeStep_enc4 h'' h1 bs

/-! ### Round trips of the two collaborating decoders -/

theorem utf8Decode_utf8Encode {s : List Nat} (h : WF s) :
    utf8Decode (utf8Encode s) = some s := by
  induction s with
  | nil => rfl
  | cons c t ih =>
    have hc : ScalarValue c := h c (List.mem_cons_self c t)
    have ht : WF t := fun x hx => h x (List.mem_cons_of_mem c hx)
    rw [utf8Encode, List.flatMap_cons,
      utf8Decode_of_step_some (utf8DecodeStep_encodeChar hc _), ← utf8Encode,
      ih ht, Option.map_some']

theorem cesu8.decode_encode {s : List Nat} (h : WF s) :
    cesu8.decode (cesu8.encode s) = .ok s := by
  induction s with
  | nil => rfl
  | cons c t ih =>
    have hc : ScalarValue c := h c (List.mem_cons_self c t)
    have ht : WF t := fun x hx => h x (List.mem_cons_of_mem c hx)
    rw [cesu8.encode, List.flatMap_cons,
      cesu8.decode_of_step_some (cesu8.decodeStep_encodeChar hc _),
      ← cesu8.encode, ih ht]
    rfl

/-! ### Byte-level facts about the encodings -/

theorem mem_utf8EncodeChar {c b : Nat} (hc : c < 0x110000)
    (hb : b ∈ utf8EncodeChar c) : b ≠ 0xC0 ∧ (b = 0 → c = 0) := by
  rw [utf8EncodeChar] at hb
  split_ifs at hb <;>
    simp only [List.mem_cons, List.mem_singleton, List.not_mem_nil,
      or_false] at hb <;>
    omega

theorem mem_cesu8EncodeChar {c b : Nat} (hc : c < 0x110000)
    (hb : b ∈ cesu8.encodeChar c) : b ≠ 0xC0 ∧ (b = 0 → c = 0) := by
  rw [cesu8.encodeChar] at hb
  split_ifs at hb with h1
  · exact mem_utf8EncodeChar hc hb
  · rw [List.mem_append] at hb
    rcases hb with hb | hb
    · have hm := mem_utf8EncodeChar
        (show 0xD800 + (c - 0x10000) / 0x400 < 0x110000 by omega) hb
      exact ⟨hm.1, fun h0 => by have := hm.2 h0; omega⟩
    · have hm := mem_utf8EncodeChar
        (show 0xDC00 + (c - 0x10000) % 0x400 < 0x110000 by omega) hb
      exact ⟨hm.1, fun h0 => by have := hm.2 h0; omega⟩

theorem count_zero_utf8EncodeChar {c : Nat} (hc : c < 0x110000) :
    (utf8EncodeChar c).count 0 = if c = 0 then 1 else 0 := by
  split_ifs with hz
  · subst hz; rfl
  · rw [List.count_eq_zero]
    intro hmem
    exact hz ((mem_utf8EncodeChar hc hmem).2 rfl)

theorem count_zero_cesu8EncodeChar {c : Nat} (hc : c < 0x110000) :
    (cesu8.encodeChar c).count 0 = if c = 0 then 1 else 0 := by
  split_ifs with hz
  · subst hz; rfl
  · rw [List.count_eq_zero]
    intro hmem
    exact hz ((mem_cesu8EncodeChar hc hmem).2 rfl)

theorem length_utf8EncodeChar_lt {c : Nat} (h : c < 0x10000) :
    (utf8EncodeChar c).length = cesu8.charLen c := by
  rw [cesu8.charLen, utf8EncodeChar]
  split_ifs <;> simp_all <;> omega

theorem length_cesu8EncodeChar {c : Nat} (hc : c < 0x110000) :
    (cesu8.encodeChar c).length = cesu8.charLen c := by
  rw [cesu8.encodeChar]
  split_ifs with h1
  · exact length_utf8EncodeChar_lt h1
  · have hhi : cesu8.charLen (0xD800 + (c - 0x10000) / 0x400) = 3 := by
      rw [cesu8.charLen, if_neg (by omega), if_neg (by omega), if_pos (by omega)]
    have hlo : cesu8.charLen (0xDC00 + (c - 0x10000) % 0x400) = 3 := by
      rw [cesu8.charLen, if_neg (by omega), if_neg (by omega), if_pos (by omega)]
    have hc6 : cesu8.charLen c = 6 := by
      rw [cesu8.charLen, if_neg (by omega), if_neg (by omega), if_neg (by omega)]
    rw [List.length_append,
      length_utf8EncodeChar_lt (show 0xD800 + (c - 0x10000) / 0x400 < 0x10000 by omega),
      length_utf8EncodeChar_lt (show 0xDC00 + (c - 0x10000) % 0x400 < 0x10000 by omega),
      hhi, hlo, hc6]

/-! ### The null-escaping pass and its inverse scan -/

theorem cesu8.encode_cons (c : Nat) (t : List Nat) :
    cesu8.encode (c :: t) = cesu8.encodeChar c ++ cesu8.encode t := by
  rw [cesu8.encode, List.flatMap_cons, cesu8.encode]

theorem utf8Encode_cons (c : Nat) (t : List Nat) :
    utf8Encode (c :: t) = utf8EncodeChar c ++ utf8Encode t := by
  rw [utf8Encode, List.flatMap_cons, utf8Encode]

theorem flatMap_escape_of_ne_zero {l : List Nat} (h : ∀ b ∈ l, b ≠ 0) :
    (l.flatMap fun b => if b = mutf8.NULL_CODE_POINT then mutf8.NULL_PAIR else [b]) = l := by
  induction l with
  | nil => rfl
  | cons b t ih =>
    rw [List.flatMap_cons,
      if_neg (by simpa [mutf8.NULL_CODE_POINT] using h b (List.mem_cons_self b t)),
      ih (fun x hx => h x (List.mem_cons_of_mem b hx)), List.singleton_append]

theorem encode_mutf8_eq_flatMap (s : List Nat) :
    mutf8.encode_mutf8 s = s.flatMap mutf8.mutf8EncodeChar := by
  rw [mutf8.encode_mutf8, cesu8.encode, List.bind_assoc]
  rfl

theorem mutf8EncodeChar_of_ne_zero {c : Nat} (hc : c < 0x110000) (h0 : c ≠ 0) :
    mutf8.mutf8EncodeChar c = cesu8.encodeChar c := by
  rw [mutf8.mutf8EncodeChar]
  exact flatMap_escape_of_ne_zero
    (fun b hb hz => h0 ((mem_cesu8EncodeChar hc hb).2 hz))

theorem mutf8EncodeChar_zero : mutf8.mutf8EncodeChar 0 = mutf8.NULL_PAIR := rfl

theorem decodeMutf8Loop_cons_of_ne {b : Nat} {rest : List Nat} (hb : b ≠ 0xC0) :
    mutf8.decodeMutf8Loop (b :: rest) =
      (mutf8.decodeMutf8Loop rest).map (fun r => b :: r) := by
  rw [mutf8.decodeMutf8Loop.eq_def]
  simp only [hb, if_false]

theorem decodeMutf8Loop_nullPair (bs : List Nat) :
    mutf8.decodeMutf8Loop (0xC0 :: 0x80 :: bs) =
      (mutf8.decodeMutf8Loop bs).map (fun r => 0 :: r) := by
  rw [mutf8.decodeMutf8Loop.eq_def]
  simp [mutf8.NULL_CODE_POINT]

theorem decodeMutf8Loop_append {ds bs : List Nat} (h : ∀ b ∈ ds, b ≠ 0xC0) :
    mutf8.decodeMutf8Loop (ds ++ bs) =
      (mutf8.decodeMutf8Loop bs).map (fun r => ds ++ r) := by
  induction ds with
  | nil =>
    simp only [List.nil_append]
    cases mutf8.decodeMutf8Loop bs <;> rfl
  | cons b t ih =>
    rw [List.cons_append, decodeMutf8Loop_cons_of_ne (h b (List.mem_cons_self b t)),
      ih (fun x hx => h x (List.mem_cons_of_mem b hx))]
    cases mutf8.decodeMutf8Loop bs <;> rfl

theorem decodeMutf8Loop_encode_mutf8 {s : List Nat} (h : WF s) :
    mutf8.decodeMutf8Loop (mutf8.encode_mutf8 s) = some (cesu8.encode s) := by
  rw [encode_mutf8_eq_flatMap]
  induction s with
  | nil => rfl
  | cons c t ih =>
    have hc : ScalarValue c := h c (List.mem_cons_self c t)
    have ht : WF t := fun x hx => h x (List.mem_cons_of_mem c hx)
    rw [List.flatMap_cons, cesu8.encode_cons]
    by_cases hz : c = 0
    · subst hz
      rw [mutf8EncodeChar_zero,
        show mutf8.NULL_PAIR ++ t.flatMap mutf8.mutf8EncodeChar =
          0xC0 :: 0x80 :: t.flatMap mutf8.mutf8EncodeChar from rfl,
        decodeMutf8Loop_nullPair, ih ht, Option.map_some']
      rfl
    · rw [mutf8EncodeChar_of_ne_zero hc.1 hz,
        decodeMutf8Loop_append (fun b hb => (mem_cesu8EncodeChar hc.1 hb).1),
        ih ht, Option.map_some']

/-! ### Validity bookkeeping -/

theorem cesu8.is_valid_iff (s : List Nat) :
    cesu8.is_valid s = true ↔ ∀ c ∈ s, c < 0x10000 := by
  rw [cesu8.is_valid]
  simp

theorem mutf8_is_valid_iff (s : List Nat) :
    mutf8.is_valid s = true ↔ (0 ∉ s ∧ cesu8.is_valid s = true) := by
  rw [mutf8.is_valid]
  simp [mutf8.NULL_CHAR]

theorem is_valid_cons_of_good {c : Nat} {t : List Nat} (h0 : c ≠ 0)
    (hlt : c < 0x10000) : mutf8.is_valid (c :: t) = mutf8.is_valid t := by
  rw [mutf8.is_valid, mutf8.is_valid]
  simp [mutf8.NULL_CHAR, cesu8.is_valid, h0, hlt, Ne.symm h0]

/-! ### The slow encoding path is never valid UTF-8 -/

theorem utf8DecodeStep_nullPair (bs : List Nat) :
    utf8DecodeStep (0xC0 :: 0x80 :: bs) = none := by
  rw [utf8DecodeStep, if_neg (by omega), if_neg (by omega), if_pos (by omega),
    utf8Step2, if_pos (isCont_of (by omega) (by omega)), if_pos (by omega)]

theorem utf8Decode_flatMap_invalid {s : List Nat} (bs : List Nat) (h : WF s)
    (hv : mutf8.is_valid s = false) :
    utf8Decode (s.flatMap mutf8.mutf8EncodeChar ++ bs) = none := by
  induction s with
  | nil => simp [mutf8.is_valid, cesu8.is_valid, mutf8.NULL_CHAR] at hv
  | cons c t ih =>
    have hc : ScalarValue c := h c (List.mem_cons_self c t)
    have ht : WF t := fun x hx => h x (List.mem_cons_of_mem c hx)
    by_cases hz : c = 0
    · subst hz
      rw [List.flatMap_cons, mutf8EncodeChar_zero, List.append_assoc,
        show mutf8.NULL_PAIR ++ (t.flatMap mutf8.mutf8EncodeChar ++ bs) =
          0xC0 :: 0x80 :: (t.flatMap mutf8.mutf8EncodeChar ++ bs) from rfl]
      exact utf8Decode_of_step_none (List.cons_ne_nil _ _)
        (utf8DecodeStep_nullPair _)
    · have hc1 : c < 0x110000 := hc.1
      by_cases hbig : 0x10000 ≤ c
      · rw [List.flatMap_cons, mutf8EncodeChar_of_ne_zero hc.1 hz,
          cesu8.encodeChar, if_neg (by omega), List.append_assoc,
          List.append_assoc]
        exact utf8Decode_of_step_none
          (List.append_ne_nil_of_ne_nil_left (utf8EncodeChar_ne_nil _) _)
          (utf8DecodeStep_encSurrogate (by omega) (by omega) _)
      · have hvt : mutf8.is_valid t = false := by
          rw [← is_valid_cons_of_good hz (by omega)]
          exact hv
        rw [List.flatMap_cons, mutf8EncodeChar_of_ne_zero hc.1 hz,
          cesu8.encodeChar, if_pos (by omega), List.append_assoc,
          utf8Decode_of_step_some (utf8DecodeStep_encodeChar hc _),
          ih ht hvt, Option.map_none']

/-! ### Unfolding the mutf8 entry points -/

theorem encode_of_valid {s : List Nat} (h : mutf8.is_valid s = true) :
    mutf8.encode s = utf8Encode s := by
  rw [mutf8.encode, if_pos h]

theorem encode_of_invalid {s : List Nat} (h : mutf8.is_valid s = false) :
    mutf8.encode s = mutf8.encode_mutf8 s := by
  rw [mutf8.encode, if_neg (by simp [h])]

theorem decode_of_utf8 {bs : List Nat} {t : List Nat}
    (h : utf8Decode bs = some t) : mutf8.decode bs = .ok t := by
  simp only [mutf8.decode, h]

theorem decode_of_not_utf8 {bs : List Nat} (h : utf8Decode bs = none) :
    mutf8.decode bs = mutf8.decode_mutf8 bs := by
  simp only [mutf8.decode, h]

theorem decode_mutf8_of_loop_none {bs : List Nat}
    (h : mutf8.decodeMutf8Loop bs = none) :
    mutf8.decode_mutf8 bs = .error mutf8.Error.mk := by
  simp only [mutf8.decode_mutf8, h]

theorem decode_mutf8_of_loop_some {bs ds : List Nat}
    (h : mutf8.decodeMutf8Loop bs = some ds) :
    mutf8.decode_mutf8 bs = (cesu8.decode ds).mapError mutf8.Error.fromCesu8 := by
  simp only [mutf8.decode_mutf8, h]

theorem utf8Decode_encode_mutf8_invalid {s : List Nat} (h : WF s)
    (hv : mutf8.is_valid s = false) :
    utf8Decode (mutf8.encode_mutf8 s) = none := by
  rw [encode_mutf8_eq_flatMap]
  have := utf8Decode_flatMap_invalid [] h hv
  rwa [List.append_nil] at this

theorem decode_encode_aux {s : List Nat} (h : WF s) :
    mutf8.decode (mutf8.encode s) = .ok s := by
  cases hv : mutf8.is_valid s with
  | true =>
    rw [encode_of_valid hv]
    exact decode_of_utf8 (utf8Decode_utf8Encode h)
  | false =>
    rw [encode_of_invalid hv,
      decode_of_not_utf8 (utf8Decode_encode_mutf8_invalid h hv),
      decode_mutf8_of_loop_some (decodeMutf8Loop_encode_mutf8 h),
      cesu8.decode_encode h]
    rfl

/-! ### Length accounting -/

theorem cesu8.len_cons (c : Nat) (t : List Nat) :
    cesu8.len (c :: t) = cesu8.charLen c + cesu8.len t := by
  rw [cesu8.len, List.map_cons, List.sum_cons, cesu8.len]

theorem cesu8.length_encode {s : List Nat} (h : WF s) :
    (cesu8.encode s).length = cesu8.len s := by
  induction s with
  | nil => rfl
  | cons c t ih =>
    have hc : ScalarValue c := h c (List.mem_cons_self c t)
    have ht : WF t := fun x hx => h x (List.mem_cons_of_mem c hx)
    rw [cesu8.encode_cons, List.length_append, length_cesu8EncodeChar hc.1,
      ih ht, cesu8.len_cons]

theorem length_utf8Encode_of_bmp {s : List Nat} (h : ∀ c ∈ s, c < 0x10000) :
    (utf8Encode s).length = cesu8.len s := by
  induction s with
  | nil => rfl
  | cons c t ih =>
    rw [utf8Encode_cons, List.length_append,
      length_utf8EncodeChar_lt (h c (List.mem_cons_self c t)),
      ih (fun x hx => h x (List.mem_cons_of_mem c hx)), cesu8.len_cons]

theorem count_zero_utf8Encode {s : List Nat} (h : WF s) :
    (utf8Encode s).count 0 = s.count 0 := by
  induction s with
  | nil => rfl
  | cons c t ih =>
    have hc : ScalarValue c := h c (List.mem_cons_self c t)
    have ht : WF t := fun x hx => h x (List.mem_cons_of_mem c hx)
    rw [utf8Encode_cons, List.count_append, count_zero_utf8EncodeChar hc.1,
      ih ht, List.count_cons]
    by_cases hz : c = 0 <;> simp [hz] <;> omega

theorem count_zero_cesu8Encode {s : List Nat} (h : WF s) :
    (cesu8.encode s).count 0 = s.count 0 := by
  induction s with
  | nil => rfl
  | cons c t ih =>
    have hc : ScalarValue c := h c (List.mem_cons_self c t)
    have ht : WF t := fun x hx => h x (List.mem_cons_of_mem c hx)
    rw [cesu8.encode_cons, List.count_append, count_zero_cesu8EncodeChar hc.1,
      ih ht, List.count_cons]
    by_cases hz : c = 0 <;> simp [hz] <;> omega

theorem length_escape (l : List Nat) :
    (l.flatMap fun b => if b = mutf8.NULL_CODE_POINT then mutf8.NULL_PAIR else [b]).length =
      l.length + l.count 0 := by
  induction l with
  | nil => rfl
  | cons b t ih =>
    rw [List.flatMap_cons, List.length_append, ih, List.length_cons,
      List.count_cons]
    by_cases hz : b = 0 <;>
      simp [hz, mutf8.NULL_CODE_POINT, mutf8.NULL_PAIR] <;> omega

theorem length_encode_mutf8 {s : List Nat} (h : WF s) :
    (mutf8.encode_mutf8 s).length = cesu8.len s + s.count 0 := by
  rw [mutf8.encode_mutf8, length_escape, cesu8.length_encode h,
    count_zero_cesu8Encode h]

theorem len_eq_length_encode {s : List Nat} (h : WF s) :
    mutf8.len s = (mutf8.encode s).length := by
  rw [mutf8.len, mutf8.NULL_CODE_POINT, count_zero_utf8Encode h]
  cases hv : mutf8.is_valid s with
  | true =>
    have hno : (0 : Nat) ∉ s := ((mutf8_is_valid_iff s).1 hv).1
    have hbmp : ∀ c ∈ s, c < 0x10000 :=
      (cesu8.is_valid_iff s).1 ((mutf8_is_valid_iff s).1 hv).2
    rw [encode_of_valid hv, length_utf8Encode_of_bmp hbmp,
      List.count_eq_zero.2 hno, Nat.add_zero]
  | false =>
    rw [encode_of_invalid hv, length_encode_mutf8 h]

/-! ### Soundness of the UTF-8 fast path: accepted buffers are re-encodings -/

theorem utf8Step2_sound {b1 : Nat} {t : List Nat} {c : Nat} {rest : List Nat}
    (hb1 : 0xC0 ≤ b1) (hb2 : b1 < 0xE0) (h : utf8Step2 b1 t = some (c, rest)) :
    ScalarValue c ∧ b1 :: t = utf8EncodeChar c ++ rest := by
  match t with
  | [] => simp [utf8Step2] at h
  | b2 :: t2 =>
    simp only [utf8Step2] at h
    split_ifs at h with hcont hover
    simp only [Option.some.injEq, Prod.mk.injEq] at h
    obtain ⟨hcv, rfl⟩ := h
    obtain ⟨hcl, hcu⟩ := hcont
    refine ⟨⟨by omega, by omega⟩, ?_⟩
    rw [utf8EncodeChar_eq2 (by omega) (by omega)]
    simp only [List.cons_append, List.nil_append, List.cons.injEq, and_true]
    exact ⟨by omega, by omega⟩

theorem utf8Step3_sound {b1 : Nat} {t : List Nat} {c : Nat} {rest : List Nat}
    (hb1 : 0xE0 ≤ b1) (hb2 : b1 < 0xF0) (h : utf8Step3 b1 t = some (c, rest)) :
    ScalarValue c ∧ b1 :: t = utf8EncodeChar c ++ rest := by
  match t with
  | [] => simp [utf8Step3] at h
  | [_] => simp [utf8Step3] at h
  | b2 :: b3 :: t3 =>
    simp only [utf8Step3] at h
    split_ifs at h with hcont hover hsurr
    simp only [Option.some.injEq, Prod.mk.injEq] at h
    obtain ⟨hcv, rfl⟩ := h
    obtain ⟨⟨h2l, h2u⟩, h3l, h3u⟩ := hcont
    refine ⟨⟨by omega, by omega⟩, ?_⟩
    rw [utf8EncodeChar_eq3 (by omega) (by omega)]
    simp only [List.cons_append, List.nil_append, List.cons.injEq, and_true]
    exact ⟨by omega, by omega, by omega⟩

theorem utf8Step4_sound {b1 : Nat} {t : List Nat} {c : Nat} {rest : List Nat}
    (hb1 : 0xF0 ≤ b1) (hb2 : b1 < 0xF8) (h : utf8Step4 b1 t = some (c, rest)) :
    ScalarValue c ∧ b1 :: t = utf8EncodeChar c ++ rest := by
  match t with
  | [] => simp [utf8Step4] at h
  | [_] => simp [utf8Step4] at h
  | [_, _] => simp [utf8Step4] at h
  | b2 :: b3 :: b4 :: t4 =>
    simp only [utf8Step4] at h
    split_ifs at h with hcont hover hmax
    simp only [Option.some.injEq, Prod.mk.injEq] at h
    obtain ⟨hcv, rfl⟩ := h
    obtain ⟨⟨h2l, h2u⟩, ⟨h3l, h3u⟩, h4l, h4u⟩ := hcont
    refine ⟨⟨by omega, by omega⟩, ?_⟩
    rw [utf8EncodeChar_eq4 (by omega)]
    simp only [List.cons_append, List.nil_append, List.cons.injEq, and_true]
    exact ⟨by omega, by omega, by omega, by omega⟩

theorem utf8DecodeStep_sound {bs : List Nat} {c : Nat} {rest : List Nat}
    (h : utf8DecodeStep bs = some (c, rest)) :
    ScalarValue c ∧ bs = utf8EncodeChar c ++ rest := by
  match bs with
  | [] => simp [utf8DecodeStep] at h
  | b1 :: t1 =>
    simp only [utf8DecodeStep] at h
    split_ifs at h with h1 h2 h3 h4 h5
    · simp only [Option.some.injEq, Prod.mk.injEq] at h
      obtain ⟨rfl, rfl⟩ := h
      exact ⟨⟨by omega, by omega⟩, by rw [utf8EncodeChar_eq1 h1,
        List.cons_append, List.nil_append]⟩
    · exact utf8Step2_sound (by omega) (by omega) h
    · exact utf8Step3_sound (by omega) (by omega) h
    · exact utf8Step4_sound (by omega) (by omega) h

theorem utf8Decode_sound_aux :
    ∀ (n : Nat) {bs : List Nat}, bs.length ≤ n → ∀ {t : List Nat},
      utf8Decode bs = some t → WF t ∧ bs = utf8Encode t
  | _, [], _, t, h => by
    have : t = [] := by
      simpa [utf8Decode, utf8DecodeGo] using h.symm
    subst this
    exact ⟨fun c hc => absurd hc (List.not_mem_nil c), rfl⟩
  | n + 1, b1 :: t1, hn, t, h => by
    cases hstep : utf8DecodeStep (b1 :: t1) with
    | none =>
      rw [utf8Decode_of_step_none (List.cons_ne_nil _ _) hstep] at h
      exact absurd h (by simp)
    | some p =>
      obtain ⟨c, rest⟩ := p
      rw [utf8Decode_of_step_some hstep] at h
      obtain ⟨r, hr, rfl⟩ : ∃ r, utf8Decode rest = some r ∧ t = c :: r := by
        cases hrest : utf8Decode rest with
        | none => rw [hrest] at h; exact absurd h (by simp)
        | some r =>
          rw [hrest, Option.map_some'] at h
          exact ⟨r, rfl, (Option.some.injEq _ _ ▸ h.symm)⟩
      have hlen := utf8DecodeStep_length hstep
      simp only [List.length_cons] at hlen hn
      have hrec := utf8Decode_sound_aux n (by omega) hr
      obtain ⟨hsc, hbytes⟩ := utf8DecodeStep_sound hstep
      refine ⟨?_, ?_⟩
      · intro x hx
        rcases List.mem_cons.1 hx with rfl | hx
        · exact hsc
        · exact hrec.1 x hx
      · rw [hbytes, utf8Encode_cons, hrec.2]

theorem utf8Decode_sound {bs t : List Nat} (h : utf8Decode bs = some t) :
    WF t ∧ bs = utf8Encode t :=
  utf8Decode_sound_aux bs.length (Nat.le_refl _) h

theorem not_mem_utf8Encode_C0 {t : List Nat} (h : WF t) :
    0xC0 ∉ utf8Encode t := by
  intro hmem
  rw [utf8Encode] at hmem
  obtain ⟨c, hc, hb⟩ := List.mem_flatMap.1 hmem
  exact (mem_utf8EncodeChar (h c hc).1 hb).1 rfl

/-! ### No literal null bytes in encoded output -/

theorem not_mem_zero_utf8Encode {s : List Nat} (h : WF s) (h0 : 0 ∉ s) :
    0 ∉ utf8Encode s := by
  intro hmem
  rw [utf8Encode] at hmem
  obtain ⟨c, hc, hb⟩ := List.mem_flatMap.1 hmem
  exact h0 (((mem_utf8EncodeChar (h c hc).1 hb).2 rfl) ▸ hc)

theorem not_mem_zero_escape (l : List Nat) :
    0 ∉ l.flatMap (fun b => if b = mutf8.NULL_CODE_POINT then mutf8.NULL_PAIR else [b]) := by
  intro hmem
  obtain ⟨b, hb, h0⟩ := List.mem_flatMap.1 hmem
  by_cases hz : b = mutf8.NULL_CODE_POINT
  · rw [if_pos hz] at h0
    simp [mutf8.NULL_PAIR] at h0
  · rw [if_neg hz] at h0
    simp only [List.mem_singleton] at h0
    exact hz (by rw [← h0]; rfl)

theorem is_valid_false_of_mem_zero {s : List Nat} (h0 : 0 ∈ s) :
    mutf8.is_valid s = false := by
  rw [mutf8.is_valid]
  simp [mutf8.NULL_CHAR, h0]

theorem decodeMutf8Loop_trailing {l : List Nat} (h : ∀ b ∈ l, b ≠ 0xC0) :
    mutf8.decodeMutf8Loop (l ++ [0xC0]) = none := by
  rw [decodeMutf8Loop_append h]
  rfl

theorem decodeMutf8Loop_mismatch {l r : List Nat} {b : Nat}
    (h : ∀ x ∈ l, x ≠ 0xC0) (hb : b ≠ 0x80) :
    mutf8.decodeMutf8Loop (l ++ 0xC0 :: b :: r) = none := by
  rw [decodeMutf8Loop_append h, mutf8.decodeMutf8Loop.eq_def]
  simp [hb]

/-! ### The claims -/

/-- C1: for every well-formed text value `s`, `decode (encode s)` succeeds and
returns a text value equal to `s` exactly — the encode/decode pair restores
the original scalar sequence. -/
theorem claim_C1_roundtrip (s : List Nat) (h : WF s) :
    mutf8.decode (mutf8.encode s) = Except.ok s :=
  decode_encode_aux h

theorem claim_C1_roundtrip_witness :
    WF [0x48, 0x10401, 0, 0x7FF] ∧
      mutf8.decode (mutf8.encode [0x48, 0x10401, 0, 0x7FF]) =
        Except.ok [0x48, 0x10401, 0, 0x7FF] :=
  ⟨by decide, claim_C1_roundtrip [0x48, 0x10401, 0, 0x7FF] (by decide)⟩

/-- C2: `encode` of the one-character text holding only the null code point is
exactly `{0xC0, 0x80}`, and `decode {0xC0, 0x80}` succeeds with that
one-character text. -/
theorem claim_C2_null_escaping :
    mutf8.encode [0] = [0xC0, 0x80] ∧
      mutf8.decode [0xC0, 0x80] = Except.ok [0] := by
  decide

/-- C3: for every well-formed text value `s`, `len s` equals the byte length
of `encode s`, and `len` computes it as the CESU-8 encoded length plus one
extra byte per null code point of `s`. -/
theorem claim_C3_len_accuracy (s : List Nat) (h : WF s) :
    mutf8.len s = (mutf8.encode s).length ∧
      mutf8.len s = cesu8.len s + s.count 0 :=
  ⟨len_eq_length_encode h,
   by rw [mutf8.len, mutf8.NULL_CODE_POINT, count_zero_utf8Encode h]⟩

theorem claim_C3_len_accuracy_witness :
    WF [0, 0x10401, 0x41] ∧
      (mutf8.len [0, 0x10401, 0x41] = (mutf8.encode [0, 0x10401, 0x41]).length ∧
        mutf8.len [0, 0x10401, 0x41] =
          cesu8.len [0, 0x10401, 0x41] + List.count 0 [0, 0x10401, 0x41]) :=
  ⟨by decide, claim_C3_len_accuracy [0, 0x10401, 0x41] (by decide)⟩

/-- C4: `is_valid s` holds exactly when `s` has no null code point and passes
the CESU-8 validity check; for well-formed `s` with no nulls and no scalar
value above `0xFFFF`, `is_valid s` is true and `encode s` is byte-for-byte the
native UTF-8 representation of `s`. -/
theorem claim_C4_identity_fast_path (s : List Nat) (h : WF s) :
    (mutf8.is_valid s = true ↔ (0 ∉ s ∧ cesu8.is_valid s = true)) ∧
      ((0 ∉ s ∧ ∀ c ∈ s, c < 0x10000) →
        mutf8.is_valid s = true ∧ mutf8.encode s = utf8Encode s) := by
  refine ⟨mutf8_is_valid_iff s, fun ⟨h0, hb⟩ => ?_⟩
  have hv : mutf8.is_valid s = true :=
    (mutf8_is_valid_iff s).2 ⟨h0, (cesu8.is_valid_iff s).2 hb⟩
  exact ⟨hv, encode_of_valid hv⟩

theorem claim_C4_identity_fast_path_witness :
    WF [0x48, 0x65] ∧
      ((mutf8.is_valid [0x48, 0x65] = true ↔
          (0 ∉ [0x48, 0x65] ∧ cesu8.is_valid [0x48, 0x65] = true)) ∧
        ((0 ∉ [0x48, 0x65] ∧ ∀ c ∈ [0x48, 0x65], c < 0x10000) →
          mutf8.is_valid [0x48, 0x65] = true ∧
            mutf8.encode [0x48, 0x65] = utf8Encode [0x48, 0x65])) :=
  ⟨by decide, claim_C4_identity_fast_path [0x48, 0x65] (by decide)⟩

/-- C5: every byte buffer that is well-formed UTF-8 decodes successfully via
the fast path, and the returned text value references the original buffer
byte-for-byte (its UTF-8 representation is the input buffer unchanged); in
particular the empty buffer decodes to the empty text this way. -/
theorem claim_C5_utf8_fast_path (bs t : List Nat) (h : utf8Decode bs = some t) :
    mutf8.decode bs = Except.ok t ∧ utf8Encode t = bs :=
  ⟨decode_of_utf8 h, (utf8Decode_sound h).2.symm⟩

theorem claim_C5_utf8_fast_path_witness :
    mutf8.decode [] = Except.ok [] ∧ utf8Encode [] = [] :=
  claim_C5_utf8_fast_path [] [] rfl

/-- C6 counterexample: the buffer `{0x00}` is well-formed UTF-8, is accepted
by the fast path of `decode`, and contains a literal null byte — refuting the
claim that fast-path buffers contain no literal nulls. -/
theorem claim_C6_counterexample :
    utf8Decode [0x00] = some [0x00] ∧
      mutf8.decode [0x00] = Except.ok [0x00] ∧ (0x00 : Nat) ∈ [0x00] := by
  decide

/-- C6 (amended): every byte buffer accepted by decode's fast path contains no
`0xC0` byte — hence no MUTF-8 null-escape pairs — though it may contain
literal null bytes. -/
theorem claim_C6_no_escape_lead (bs t : List Nat) (h : utf8Decode bs = some t) :
    0xC0 ∉ bs := by
  obtain ⟨hwf, heq⟩ := utf8Decode_sound h
  rw [heq]
  exact not_mem_utf8Encode_C0 hwf

theorem claim_C6_no_escape_lead_witness : (0xC0 : Nat) ∉ [0x41] :=
  claim_C6_no_escape_lead [0x41] [0x41] rfl

/-- C7: on the slow path (buffer not valid UTF-8), a `0xC0` encountered by the
scan that is not immediately followed by `0x80` — because the buffer ends or
the next byte differs — makes `decode` fail with the decoding error and no
partial result; in particular `decode {0xC0}` and `decode {0xC0, 0x81}` fail. -/
theorem claim_C7_escape_scan_failure :
    (∀ bs : List Nat, utf8Decode bs = none → mutf8.decodeMutf8Loop bs = none →
        mutf8.decode bs = Except.error mutf8.Error.mk) ∧
      (∀ l : List Nat, (∀ b ∈ l, b ≠ 0xC0) →
        mutf8.decodeMutf8Loop (l ++ [0xC0]) = none) ∧
      (∀ (l r : List Nat) (b : Nat), (∀ x ∈ l, x ≠ 0xC0) → b ≠ 0x80 →
        mutf8.decodeMutf8Loop (l ++ 0xC0 :: b :: r) = none) ∧
      mutf8.decode [0xC0] = Except.error mutf8.Error.mk ∧
      mutf8.decode [0xC0, 0x81] = Except.error mutf8.Error.mk := by
  refine ⟨fun bs h1 h2 => ?_, fun l hl => decodeMutf8Loop_trailing hl,
    fun l r b hl hb => decodeMutf8Loop_mismatch hl hb, by decide, by decide⟩
  rw [decode_of_not_utf8 h1, decode_mutf8_of_loop_none h2]

theorem claim_C7_escape_scan_failure_witness :
    mutf8.decode [0xC0] = Except.error mutf8.Error.mk ∧
      mutf8.decodeMutf8Loop [0x41, 0xC0] = none ∧
      mutf8.decodeMutf8Loop [0x41, 0xC0, 0x81, 0x42] = none :=
  ⟨claim_C7_escape_scan_failure.1 [0xC0] (by decide) (by decide),
   claim_C7_escape_scan_failure.2.1 [0x41] (by decide),
   claim_C7_escape_scan_failure.2.2.1 [0x41] [0x42] 0x81 (by decide) (by decide)⟩

/-- C8: for every well-formed text value `s`, `encode s` contains no literal
`0x00` byte, and when `s` contains a null code point the output is produced
per scalar with the null expanding to the pair `{0xC0, 0x80}`. -/
theorem claim_C8_no_literal_nulls (s : List Nat) (h : WF s) :
    0x00 ∉ mutf8.encode s ∧
      (0 ∈ s → mutf8.encode s = s.flatMap mutf8.mutf8EncodeChar ∧
        mutf8.mutf8EncodeChar 0 = [0xC0, 0x80]) := by
  constructor
  · cases hv : mutf8.is_valid s with
    | true =>
      rw [encode_of_valid hv]
      exact not_mem_zero_utf8Encode h ((mutf8_is_valid_iff s).1 hv).1
    | false =>
      rw [encode_of_invalid hv, mutf8.encode_mutf8]
      exact not_mem_zero_escape _
  · intro h0
    have hv := is_valid_false_of_mem_zero h0
    exact ⟨by rw [encode_of_invalid hv, encode_mutf8_eq_flatMap], rfl⟩

theorem claim_C8_no_literal_nulls_witness :
    0x00 ∉ mutf8.encode [0x41, 0] ∧
      (0 ∈ [0x41, 0] → mutf8.encode [0x41, 0] =
          List.flatMap [0x41, 0] mutf8.mutf8EncodeChar ∧
        mutf8.mutf8EncodeChar 0 = [0xC0, 0x80]) :=
  claim_C8_no_literal_nulls [0x41, 0] (by decide)

/-- C9: `decode` has exactly one failure outcome — the opaque `Error` value
with no payload; the malformed-escape sub-condition and the CESU-8-failure
sub-condition surface as that same, indistinguishable value. -/
theorem claim_C9_single_opaque_error :
    (∀ e1 e2 : mutf8.Error, e1 = e2) ∧
      (∀ ce : cesu8.Error, mutf8.Error.fromCesu8 ce = mutf8.Error.mk) ∧
      (∀ (bs : List Nat) (e : mutf8.Error),
        mutf8.decode bs = Except.error e → e = mutf8.Error.mk) ∧
      mutf8.decode [0xC0] = Except.error mutf8.Error.mk ∧
      mutf8.decode [0xFF] = Except.error mutf8.Error.mk := by
  refine ⟨fun e1 e2 => by cases e1; cases e2; rfl, fun ce => rfl,
    fun bs e _ => by cases e; rfl, by decide, by decide⟩

theorem claim_C9_single_opaque_error_witness :
    mutf8.Error.mk = mutf8.Error.mk :=
  claim_C9_single_opaque_error.2.2.1 [0xC0] mutf8.Error.mk (by decide)

/-- C10: `encode` of the one-character text `U+10401` is exactly the six-byte
surrogate-pair sequence, and `decode` of that sequence restores the text. -/
theorem claim_C10_supplementary_plane :
    mutf8.encode [0x10401] = [0xED, 0xA0, 0x81, 0xED, 0xB0, 0x81] ∧
      mutf8.decode [0xED, 0xA0, 0x81, 0xED, 0xB0, 0x81] =
        Except.ok [0x10401] := by
  decide
